import Mathlib

/-!
# Verification of the consumer-newsletter content pipeline

Shallow embedding of the text-cleanup, JSON-extraction, search aggregation,
video sorting and image post-processing functions of the repository
(`app.py`, `backend/integrations/youtube_client.py`), together with proofs
and refutations of the specified properties.

Python strings are modelled as `List Char`; Python `str.strip`, `str.split`,
`str.join`, `str.lstrip` are given explicit executable models below.
-/


namespace Newsletter

/-- The characters Python's `str.strip()` removes: the Python whitespace set. -/
def pyIsSpace (c : Char) : Bool :=
  c == ' ' || c == '\t' || c == '\n' || c == '\r' || c == Char.ofNat 11 || c == Char.ofNat 12

/-- Model of Python `str.strip()`: drop leading and trailing whitespace. -/
def pyStrip (l : List Char) : List Char :=
  ((l.dropWhile pyIsSpace).reverse.dropWhile pyIsSpace).reverse

/-- Model of Python `str.strip(ch)` for a single given character. -/
def pyStripChar (ch : Char) (l : List Char) : List Char :=
  ((l.dropWhile (· == ch)).reverse.dropWhile (· == ch)).reverse

/-- Model of Python `str.split('\n')`: split on every newline; never empty,
`"".split('\n') = ['']`. -/
def splitLines : List Char → List (List Char)
  | [] => [[]]
  | c :: cs =>
    if c = '\n' then [] :: splitLines cs
    else
      match splitLines cs with
      | p :: ps => (c :: p) :: ps
      | [] => [[c]]

/-- Model of Python `'\n'.join(lines)`: the pieces interleaved with single
newlines. -/
def joinLines : List (List Char) → List Char
  | [] => []
  | [p] => p
  | p :: ps => p ++ '\n' :: joinLines ps

/-- Shorthand turning a Lean string literal into the `List Char` model. -/
def txt (s : String) : List Char := s.data

/-- Embedding of `strip_ai_title` (src/app.py lines 281-304): drop a leading
hallucinated title line from generated text.  Mirrors the source line by
line: the emptiness guard, split on newlines, `#`-header unwrapping of the
first line, the short-title drop condition, and the bold `**...**` title
case. -/
def strip_ai_title (text : List Char) : List Char :=
  if text = [] then text
  else
    let s := pyStrip text
    let lines := splitLines s
    if lines.length ≤ 1 then s
    else
      let first0 := pyStrip (lines.headD [])
      let first_line :=
        if first0.headD ' ' = '#' then pyStrip (first0.dropWhile (· == '#')) else first0
      let rest := pyStrip (joinLines lines.tail)
      if first_line.length < 60 ∧ first_line.getLastD ' ' ≠ '.' ∧
          first_line.getLastD ' ' ≠ '!' ∧ rest ≠ [] ∧ first_line.length < rest.length then
        rest
      else if (txt "**").isPrefixOf first_line ∧ (txt "**").isSuffixOf first_line then
        (if rest ≠ [] then rest else pyStrip (pyStripChar '*' first_line))
      else s

/-! ## `process_generated_content` (src/app.py lines 307-315)

Python values reaching `process_generated_content` are nested dicts, lists,
strings and other leaves (numbers, booleans, `None`).  The dict case keeps
every key and recurses on values, the list case recurses elementwise, the
string case applies `convert_markdown_to_html`, and anything else is
returned unchanged.  The markdown converter is passed as a parameter
`conv`. -/

inductive PyVal where
  | str (s : List Char)
  | num (n : Int)
  | bool (b : Bool)
  | none
  | list (xs : List PyVal)
  | dict (kvs : List (List Char × PyVal))

mutual

/-- Embedding of `process_generated_content`: recursively convert markdown
in every string leaf, preserving dict keys, list structure and non-string
leaves. -/
def process_generated_content (conv : List Char → List Char) : PyVal → PyVal
  | .dict kvs => .dict (process_generated_content_dict conv kvs)
  | .list xs => .list (process_generated_content_list conv xs)
  | .str s => .str (conv s)
  | v => v

def process_generated_content_list (conv : List Char → List Char) :
    List PyVal → List PyVal
  | [] => []
  | x :: xs => process_generated_content conv x :: process_generated_content_list conv xs

def process_generated_content_dict (conv : List Char → List Char) :
    List (List Char × PyVal) → List (List Char × PyVal)
  | [] => []
  | kv :: kvs =>
    (kv.1, process_generated_content conv kv.2) :: process_generated_content_dict conv kvs

end

mutual

/-- The structural skeleton of a value: string leaf contents are erased,
everything else (dict keys, list structure, non-string leaves) is kept. -/
def pyShape : PyVal → PyVal
  | .dict kvs => .dict (pyShapeDict kvs)
  | .list xs => .list (pyShapeList xs)
  | .str _ => .str []
  | v => v

def pyShapeList : List PyVal → List PyVal
  | [] => []
  | x :: xs => pyShape x :: pyShapeList xs

def pyShapeDict : List (List Char × PyVal) → List (List Char × PyVal)
  | [] => []
  | kv :: kvs => (kv.1, pyShape kv.2) :: pyShapeDict kvs

end

mutual

/-- All string leaves of a value, in depth-first order. -/
def stringLeaves : PyVal → List (List Char)
  | .dict kvs => stringLeavesDict kvs
  | .list xs => stringLeavesList xs
  | .str s => [s]
  | _ => []

def stringLeavesList : List PyVal → List (List Char)
  | [] => []
  | x :: xs => stringLeaves x ++ stringLeavesList xs

def stringLeavesDict : List (List Char × PyVal) → List (List Char)
  | [] => []
  | kv :: kvs => stringLeaves kv.2 ++ stringLeavesDict kvs

end

/-! ## `parse_json_from_llm` (src/app.py lines 340-376)

The tiered JSON extractor.  Parsed JSON values are modelled by `Json`; the
standard-library parser `json.loads` is an external collaborator and is
passed as a parameter `loads : List Char → Option Json` (`none` models a
raised `JSONDecodeError`). -/

inductive Json where
  | null
  | bool (b : Bool)
  | num (n : Int)
  | str (s : List Char)
  | arr (xs : List Json)
  | obj (kvs : List (List Char × Json))

/-- Model of Python `sep in text` for a string separator: some position of
`text` starts with `sep`. -/
def containsSeq (sep : List Char) : List Char → Bool
  | [] => sep.isEmpty
  | c :: cs => sep.isPrefixOf (c :: cs) || containsSeq sep cs

/-- Model of Python `text.split(sep)` for a non-empty string separator:
pieces between non-overlapping leftmost occurrences of `sep`. -/
def splitOnSeq (sep : List Char) (l : List Char) : List (List Char) :=
  if _hsep : sep.length = 0 then [l]
  else
    match l with
    | [] => [[]]
    | c :: cs =>
      if sep.isPrefixOf (c :: cs) then
        [] :: splitOnSeq sep (cs.drop (sep.length - 1))
      else
        match splitOnSeq sep cs with
        | p :: ps => (c :: p) :: ps
        | [] => [[c]]
termination_by l.length
decreasing_by
  · simp only [List.length_cons, List.length_drop]
    omega
  · simp only [List.length_cons]
    omega

/-- The code-fence stripping step of `parse_json_from_llm`:
`text.split('```json')[1].split('```')[0].strip()` when a ```json fence is
present, `text.split('```')[1].split('```')[0].strip()` when a bare ```
fence is present, the text unchanged otherwise. -/
def stripFences (text : List Char) : List Char :=
  if containsSeq (txt "```json") text then
    pyStrip ((splitOnSeq (txt "```") ((splitOnSeq (txt "```json") text).getD 1 [])).getD 0 [])
  else if containsSeq (txt "```") text then
    pyStrip ((splitOnSeq (txt "```") ((splitOnSeq (txt "```") text).getD 1 [])).getD 0 [])
  else text

/-- The prefix of `cs` up to and including the last occurrence of `cl`
(empty when `cl` does not occur). -/
def takeToLast (cl : Char) (cs : List Char) : List Char :=
  (cs.reverse.dropWhile (fun c => c ≠ cl)).reverse

/-- Model of `re.search(r'\{[\s\S]*\}', text)` (and the `[...]` variant):
the greedy regex matches from the first opening character that is followed
by a closing character somewhere later, through the last closing character
of the text. -/
def regexSpan (op cl : Char) : List Char → Option (List Char)
  | [] => Option.none
  | c :: cs =>
    if c = op ∧ cl ∈ cs then Option.some (c :: takeToLast cl cs)
    else regexSpan op cl cs

/-- Embedding of `parse_json_from_llm`: empty/None content returns `{}`;
otherwise the trimmed text is fence-stripped, then direct parse, first
`{...}` span, first `[...]` span are tried in order; if all fail the typed
parse error carrying the (fence-stripped) text is raised, modelled by
`Except.error`. -/
def parse_json_from_llm (loads : List Char → Option Json)
    (content : Option (List Char)) : Except (List Char) Json :=
  match content with
  | Option.none => .ok (.obj [])
  | Option.some c =>
    if c = [] then .ok (.obj [])
    else
      let text := stripFences (pyStrip c)
      match loads text with
      | Option.some j => .ok j
      | Option.none =>
        match (regexSpan '{' '}' text).bind loads with
        | Option.some j => .ok j
        | Option.none =>
          match (regexSpan '[' ']' text).bind loads with
          | Option.some j => .ok j
          | Option.none => .error text

/-! ## Guess-the-Price query expansion (src/app.py lines 527-554)

`gtp_search` starts from `search_queries = [query]`; when the Claude client
is available it asks for an expansion, parses it with `parse_json_from_llm`,
and replaces the query list by the first three entries whenever the parsed
value is a list of length at least two; any exception in the expansion step
is caught and leaves the fallback in place.  The expansion outcome
(generation plus parsing, `Except.error` modelling a raised exception) is a
parameter. -/

def gtp_search_queries (query : List Char) (claude_available : Bool)
    (expansion : Except Unit Json) : List Json :=
  if claude_available then
    match expansion with
    | .ok (.arr xs) => if 2 ≤ xs.length then xs.take 3 else [.str query]
    | _ => [.str query]
  else [.str query]

/-! ## Guess-the-Price result aggregation (src/app.py lines 580-607)

The per-query Perplexity calls are external; the merge loop is embedded
over the per-query result lists.  The source iterates over the queries,
and for each result appends it to `all_results` when its URL is non-empty
and not yet in `seen_urls`. -/

/-- The §3 `SearchResult` record (URL `[]` models a missing/empty field). -/
structure SearchResult where
  title : List Char
  url : List Char
  publisher : List Char
  published_date : List Char
  summary : List Char
  image_url : List Char
deriving DecidableEq

/-- One iteration of the dedup loop body: state is
`(all_results, seen_urls)`. -/
def gtp_merge_step (st : List SearchResult × List (List Char))
    (r : SearchResult) : List SearchResult × List (List Char) :=
  if r.url ≠ [] ∧ r.url ∉ st.2 then (st.1 ++ [r], r.url :: st.2) else st

/-- Embedding of the `gtp_search` merge: fold the loop body over each
query's results in execution order, starting from empty accumulators. -/
def gtp_merge (resultLists : List (List SearchResult)) : List SearchResult :=
  (resultLists.foldl (fun st rs => rs.foldl gtp_merge_step st) ([], [])).1

/-- First-seen deduplication expressed recursively (proof vehicle for
`gtp_merge`). -/
def dedupFirstBy (seen : List (List Char)) : List SearchResult → List SearchResult
  | [] => []
  | r :: rs =>
    if r.url ≠ [] ∧ r.url ∉ seen then r :: dedupFirstBy (r.url :: seen) rs
    else dedupFirstBy seen rs

/-- The set of URLs recorded after folding the loop body over a list. -/
def seenAfter (seen : List (List Char)) : List SearchResult → List (List Char)
  | [] => seen
  | r :: rs =>
    if r.url ≠ [] ∧ r.url ∉ seen then seenAfter (r.url :: seen) rs
    else seenAfter seen rs

/-- Example per-query result lists used to instantiate the aggregation
theorem: two queries sharing the URL `"u1"`. -/
def gtpDemoLists : List (List SearchResult) :=
  [[⟨txt "t1", txt "u1", [], [], [], []⟩, ⟨txt "t2", txt "u2", [], [], [], []⟩],
   [⟨txt "t3", txt "u1", [], [], [], []⟩, ⟨txt "t4", txt "u3", [], [], [], []⟩]]

/-! ## YouTube popularity sorting
(src/backend/integrations/youtube_client.py lines 205-256)

`get_channel_videos` is a network call; it is passed as a parameter
`fetch : Nat → Option (List Char) → FetchResult` (requested count, page
token).  `get_videos_by_popularity` over-fetches `min(2 * max_results, 50)`
videos, sorts the pool by view count descending (Python's stable
`list.sort(key=..., reverse=True)`, modelled by a stable merge sort with
the reversed comparison) and truncates; the pool's `next_page_token` is
returned as is. -/

/-- The fields of the video record relevant to sorting (the source record
also carries thumbnails, dates, like counts, URLs, etc.). -/
structure Video where
  video_id : List Char
  title : List Char
  view_count : Nat
deriving DecidableEq

/-- The `{"videos": ..., "next_page_token": ...}` dict returned by the
video-listing functions. -/
structure FetchResult where
  videos : List Video
  next_page_token : Option (List Char)
deriving DecidableEq

/-- Model of `videos.sort(key=lambda v: v.get("view_count", 0),
reverse=True)`: stable sort, most views first. -/
def sortByViewsDesc (vs : List Video) : List Video :=
  vs.mergeSort (fun a b => b.view_count ≤ a.view_count)

/-- Embedding of `get_videos_by_popularity`. -/
def get_videos_by_popularity (fetch : Nat → Option (List Char) → FetchResult)
    (max_results : Nat) : FetchResult :=
  let result := fetch (min (max_results * 2) 50) Option.none
  { videos := (sortByViewsDesc result.videos).take max_results,
    next_page_token := result.next_page_token }

/-- Embedding of `get_videos_sorted`: dispatch on the sort mode. -/
def get_videos_sorted (fetch : Nat → Option (List Char) → FetchResult)
    (sort : List Char) (max_results : Nat) (page_token : Option (List Char)) :
    FetchResult :=
  if sort = txt "popular" then get_videos_by_popularity fetch max_results
  else
    let result := fetch max_results page_token
    { videos := result.videos.take max_results,
      next_page_token := result.next_page_token }

/-- A concrete fetch returning three videos with distinct view counts. -/
def gvDemoFetch : Nat → Option (List Char) → FetchResult :=
  fun _ _ =>
    ⟨[⟨txt "a", txt "A", 10⟩, ⟨txt "b", txt "B", 30⟩, ⟨txt "c", txt "C", 20⟩],
      Option.none⟩

/-! ## `resize_image` (src/app.py lines 379-391)

base64 decode + `Image.open`, `ImageOps.fit` and PNG re-encoding are PIL
collaborators, passed as parameters over an abstract image type; `decode`
returning `none` models any exception in the try block (the except clause
returns the original input).  PIL's documented contracts (`fit` returns an
image of exactly the requested size; the PNG round trip restores the
image) enter the dimension theorem as hypotheses. -/

/-- Embedding of `resize_image`: decode, crop-to-fill to the target size,
re-encode; on failure return the input unchanged. -/
def resize_image {Img : Type} (decode : List Char → Option Img)
    (fit : Img → Nat × Nat → Img) (encodePNG : Img → List Char)
    (base64_data : List Char) (target_size : Nat × Nat) : List Char :=
  match decode base64_data with
  | Option.some img => encodePNG (fit img target_size)
  | Option.none => base64_data

/-- Concrete stand-ins instantiating the image collaborators: an image is a
pair of dimensions, encoded in unary. -/
def demoEncode : Nat × Nat → List Char :=
  fun p => List.replicate (Nat.pair p.1 p.2) 'a'

def demoDecode : List Char → Option (Nat × Nat) :=
  fun s => if s.all (fun c => c = 'a') then Option.some (Nat.unpair s.length) else Option.none

def demoFit : Nat × Nat → Nat × Nat → Nat × Nat := fun _ t => t

def demoDims : Nat × Nat → Nat × Nat := id


/-! ## Theorems -/

theorem splitLines_ne_nil (l : List Char) : splitLines l ≠ [] := by
  cases l with
  | nil => simp [splitLines]
  | cons c cs =>
    simp only [splitLines]
    split
    · simp
    · split <;> simp

theorem joinLines_nil : joinLines [] = [] := rfl

theorem mem_joinLines {a : Char} {p : List Char} {ls : List (List Char)}
    (ha : a ∈ p) (hp : p ∈ ls) : a ∈ joinLines ls := by
  induction ls with
  | nil => cases hp
  | cons q qs ih =>
    cases qs with
    | nil =>
      simp only [List.mem_singleton] at hp
      subst hp
      simpa [joinLines] using ha
    | cons r rs =>
      rcases List.mem_cons.mp hp with h | h
      · subst h
        simp [joinLines, List.mem_append, ha]
      · have hmem := ih h
        simp only [joinLines]
        exact List.mem_append.mpr (Or.inr (List.mem_cons.mpr (Or.inr hmem)))

theorem pyStrip_eq_rdrop (l : List Char) :
    pyStrip l = List.rdropWhile pyIsSpace (l.dropWhile pyIsSpace) := rfl

theorem pyStrip_nil : pyStrip [] = [] := rfl

theorem pyStrip_idem (l : List Char) : pyStrip (pyStrip l) = pyStrip l := by
  rw [pyStrip_eq_rdrop (pyStrip l), pyStrip_eq_rdrop l]
  have h1 : (List.rdropWhile pyIsSpace (l.dropWhile pyIsSpace)).dropWhile pyIsSpace
      = List.rdropWhile pyIsSpace (l.dropWhile pyIsSpace) := by
    rw [List.dropWhile_eq_self_iff]
    intro hl
    have hpre := List.rdropWhile_prefix pyIsSpace (l.dropWhile pyIsSpace)
    have hl2 : 0 < (l.dropWhile pyIsSpace).length := lt_of_lt_of_le hl hpre.length_le
    have h0 : (List.rdropWhile pyIsSpace (l.dropWhile pyIsSpace)).get ⟨0, hl⟩
        = (l.dropWhile pyIsSpace).get ⟨0, hl2⟩ := by
      simpa using hpre.getElem hl
    rw [h0]
    exact List.dropWhile_get_zero_not _ _ hl2
  rw [h1, List.rdropWhile_idempotent]

/-- `strip_ai_title` only depends on the stripped form of its input. -/
theorem strip_ai_title_pyStrip (t : List Char) :
    strip_ai_title (pyStrip t) = strip_ai_title t := by
  by_cases ht : t = []
  · subst ht; rfl
  · by_cases hs : pyStrip t = []
    · rw [hs]
      simp only [strip_ai_title, if_neg ht, hs]
      rfl
    · simp only [strip_ai_title, if_neg ht, if_neg hs, pyStrip_idem]

/-- C1 (counterexample): the hallucinated-title stripping step is not
idempotent.  On `"A\nBB\nCCC"` one application drops the line `"A"` and
returns `"BB\nCCC"`, whose own first line again looks like a title, so a
second application drops `"BB"` as well and returns `"CCC"`. -/
theorem strip_ai_title_not_idempotent :
    strip_ai_title (strip_ai_title (txt "A\nBB\nCCC"))
      ≠ strip_ai_title (txt "A\nBB\nCCC") := by decide

/-- C1 (amended): the cleanup step is idempotent on every input on which it
drops nothing, i.e. whenever one application returns the whitespace-trimmed
input unchanged; when a title line is dropped, the remainder can itself
start with a title-like line and a second application strips further. -/
theorem strip_ai_title_idempotent_of_clean (t : List Char)
    (h : strip_ai_title t = pyStrip t) :
    strip_ai_title (strip_ai_title t) = strip_ai_title t := by
  rw [h, strip_ai_title_pyStrip, h]

/-- Witness for C1's amended theorem at the concrete input `"hi there."`. -/
theorem strip_ai_title_idempotent_of_clean_witness :
    strip_ai_title (strip_ai_title (txt "hi there.")) = strip_ai_title (txt "hi there.") :=
  strip_ai_title_idempotent_of_clean (txt "hi there.") (by decide)

theorem getLastD_irrel {α : Type} (b : α) (l : List α) (d d' : α) :
    (b :: l).getLastD d = (b :: l).getLastD d' := by
  rw [List.getLastD_cons, List.getLastD_cons]

/-- The last character of a nonempty stripped string is not whitespace. -/
theorem pyStrip_getLastD_not_space (l : List Char) (h : pyStrip l ≠ []) :
    pyIsSpace ((pyStrip l).getLastD ' ') = false := by
  have h' : List.rdropWhile pyIsSpace (l.dropWhile pyIsSpace) ≠ [] := by
    rw [← pyStrip_eq_rdrop]; exact h
  have hnot := List.rdropWhile_last_not pyIsSpace (l.dropWhile pyIsSpace) h'
  have hd : (pyStrip l).getLastD ' '
      = (List.rdropWhile pyIsSpace (l.dropWhile pyIsSpace)).getLast h' := by
    rw [pyStrip_eq_rdrop, List.getLastD_eq_getLast?, List.getLast?_eq_getLast _ h']
    rfl
  rw [hd]
  simpa using hnot

/-- A list containing a non-whitespace character does not strip to empty. -/
theorem pyStrip_ne_nil_of_mem {c : Char} {l : List Char} (hc : c ∈ l)
    (hs : pyIsSpace c = false) : pyStrip l ≠ [] := by
  intro h0
  rw [pyStrip_eq_rdrop] at h0
  have hcd : c ∈ l.dropWhile pyIsSpace := by
    have hsplit := List.takeWhile_append_dropWhile pyIsSpace l
    rcases List.mem_append.mp (hsplit ▸ hc) with h1 | h1
    · exact absurd (List.mem_takeWhile_imp h1) (by simp [hs])
    · exact h1
  exact absurd (List.rdropWhile_eq_nil_iff.mp h0 c hcd) (by simp [hs])

/-- The last character of a string that does not end in a newline lands in the
last line produced by `splitLines`. -/
theorem getLastD_mem_splitLines (l : List Char) (h : l ≠ [])
    (hnl : l.getLastD ' ' ≠ '\n') :
    l.getLastD ' ' ∈ (splitLines l).getLastD [] := by
  induction l with
  | nil => exact absurd rfl h
  | cons c cs ih =>
    cases cs with
    | nil =>
      have hc : c ≠ '\n' := by simpa [List.getLastD_cons] using hnl
      simp [splitLines, hc, List.getLastD_cons]
    | cons b bs =>
      have hne : (b :: bs) ≠ [] := by simp
      have hlast : (c :: b :: bs).getLastD ' ' = (b :: bs).getLastD ' ' := by
        rw [List.getLastD_cons]; exact getLastD_irrel b bs c ' '
      rw [hlast] at hnl ⊢
      have hmem := ih hne hnl
      rcases hL : splitLines (b :: bs) with _ | ⟨p, ps⟩
      · exact absurd hL (splitLines_ne_nil _)
      rw [hL] at hmem
      have hout : splitLines (c :: b :: bs)
          = if c = '\n' then [] :: splitLines (b :: bs)
            else match splitLines (b :: bs) with
              | p :: ps => (c :: p) :: ps
              | [] => [[c]] := rfl
      rw [hout, hL]
      by_cases hc : c = '\n'
      · rw [if_pos hc]
        simp only [List.getLastD_cons] at hmem ⊢
        exact hmem
      · rw [if_neg hc]
        show (b :: bs).getLastD ' ' ∈ ((c :: p) :: ps).getLastD []
        cases ps with
        | nil =>
          simp only [List.getLastD_cons, List.getLastD_nil] at hmem ⊢
          exact List.mem_cons_of_mem c hmem
        | cons q qs =>
          simp only [List.getLastD_cons] at hmem ⊢
          exact hmem

/-- C9: on any input whose trimmed content is non-empty, `strip_ai_title`
returns a non-empty string: the heuristic never discards all content. -/
theorem strip_ai_title_ne_nil (t : List Char) (h : pyStrip t ≠ []) :
    strip_ai_title t ≠ [] := by
  have ht : t ≠ [] := by
    intro h0; rw [h0] at h; exact h pyStrip_nil
  have hrest : ¬(splitLines (pyStrip t)).length ≤ 1 →
      pyStrip (joinLines (splitLines (pyStrip t)).tail) ≠ [] := by
    intro hlen
    have hlast_ns : pyIsSpace ((pyStrip t).getLastD ' ') = false :=
      pyStrip_getLastD_not_space t h
    have hnl : (pyStrip t).getLastD ' ' ≠ '\n' := by
      intro he; rw [he] at hlast_ns; simp [pyIsSpace] at hlast_ns
    have hmem := getLastD_mem_splitLines (pyStrip t) h hnl
    rcases hL : splitLines (pyStrip t) with _ | ⟨l0, ls⟩
    · exact absurd hL (splitLines_ne_nil _)
    · rw [hL] at hmem hlen
      cases ls with
      | nil => simp at hlen
      | cons l1 ls' =>
        have h1 : (l0 :: l1 :: ls').getLastD [] = (l1 :: ls').getLastD ([] : List Char) := by
          rw [List.getLastD_cons]; exact getLastD_irrel l1 ls' l0 []
        rw [h1] at hmem
        have h2 : (l1 :: ls').getLastD ([] : List Char) ∈ (l1 :: ls') := by
          rw [List.getLastD_eq_getLast?, List.getLast?_eq_getLast _ (by simp)]
          exact List.getLast_mem _
        have h3 := mem_joinLines hmem h2
        simp only [List.tail_cons]
        exact pyStrip_ne_nil_of_mem h3 hlast_ns
  simp only [strip_ai_title, if_neg ht]
  by_cases hlen : (splitLines (pyStrip t)).length ≤ 1
  · rw [if_pos hlen]; exact h
  · rw [if_neg hlen]
    have hr := hrest hlen
    split_ifs
    all_goals first
      | exact hr
      | exact h

/-- Witness for C9 at the concrete input `" tip\ncontent here. "`. -/
theorem strip_ai_title_ne_nil_witness :
    pyStrip (txt " tip\ncontent here. ") ≠ [] ∧ strip_ai_title (txt " tip\ncontent here. ") ≠ [] :=
  ⟨by decide, strip_ai_title_ne_nil (txt " tip\ncontent here. ") (by decide)⟩

mutual

theorem process_shape (conv : List Char → List Char) :
    ∀ v, pyShape (process_generated_content conv v) = pyShape v
  | .str s => rfl
  | .num n => rfl
  | .bool b => rfl
  | .none => rfl
  | .list xs => by
    simp only [process_generated_content, pyShape]
    rw [process_shape_list conv xs]
  | .dict kvs => by
    simp only [process_generated_content, pyShape]
    rw [process_shape_dict conv kvs]

theorem process_shape_list (conv : List Char → List Char) :
    ∀ xs, pyShapeList (process_generated_content_list conv xs) = pyShapeList xs
  | [] => rfl
  | x :: xs => by
    simp only [process_generated_content_list, pyShapeList]
    rw [process_shape conv x, process_shape_list conv xs]

theorem process_shape_dict (conv : List Char → List Char) :
    ∀ kvs, pyShapeDict (process_generated_content_dict conv kvs) = pyShapeDict kvs
  | [] => rfl
  | kv :: kvs => by
    simp only [process_generated_content_dict, pyShapeDict]
    rw [process_shape conv kv.2, process_shape_dict conv kvs]

end

mutual

theorem process_leaves (conv : List Char → List Char) :
    ∀ v, stringLeaves (process_generated_content conv v) = (stringLeaves v).map conv
  | .str s => rfl
  | .num n => rfl
  | .bool b => rfl
  | .none => rfl
  | .list xs => by
    simp only [process_generated_content, stringLeaves]
    rw [process_leaves_list conv xs]
  | .dict kvs => by
    simp only [process_generated_content, stringLeaves]
    rw [process_leaves_dict conv kvs]

theorem process_leaves_list (conv : List Char → List Char) :
    ∀ xs, stringLeavesList (process_generated_content_list conv xs)
      = (stringLeavesList xs).map conv
  | [] => rfl
  | x :: xs => by
    simp only [process_generated_content_list, stringLeavesList, List.map_append]
    rw [process_leaves conv x, process_leaves_list conv xs]

theorem process_leaves_dict (conv : List Char → List Char) :
    ∀ kvs, stringLeavesDict (process_generated_content_dict conv kvs)
      = (stringLeavesDict kvs).map conv
  | [] => rfl
  | kv :: kvs => by
    simp only [process_generated_content_dict, stringLeavesDict, List.map_append]
    rw [process_leaves conv kv.2, process_leaves_dict conv kvs]

end

/-- C10: `process_generated_content` is structure-preserving: it keeps the
nesting skeleton (dict keys, list lengths, non-string leaves) intact and
applies the markdown-to-HTML conversion exactly to the string leaves, in
order. -/
theorem process_generated_content_spec (conv : List Char → List Char) (v : PyVal) :
    pyShape (process_generated_content conv v) = pyShape v ∧
    stringLeaves (process_generated_content conv v) = (stringLeaves v).map conv :=
  ⟨process_shape conv v, process_leaves conv v⟩

/-- C4 (amended): for every non-empty input on which the direct parse, the
`{...}` span parse and the `[...]` span parse all fail, `parse_json_from_llm`
raises the typed parse error; the error carries the fence-stripped trimmed
text rather than the verbatim original. -/
theorem parse_json_from_llm_error_of_all_tiers_fail
    (loads : List Char → Option Json) (c : List Char) (hc : c ≠ [])
    (h2 : loads (stripFences (pyStrip c)) = Option.none)
    (h3 : ∀ s, regexSpan '{' '}' (stripFences (pyStrip c)) = Option.some s →
      loads s = Option.none)
    (h4 : ∀ s, regexSpan '[' ']' (stripFences (pyStrip c)) = Option.some s →
      loads s = Option.none) :
    parse_json_from_llm loads (Option.some c) = .error (stripFences (pyStrip c)) := by
  have e3 : (regexSpan '{' '}' (stripFences (pyStrip c))).bind loads = Option.none := by
    cases hsp : regexSpan '{' '}' (stripFences (pyStrip c)) with
    | none => rfl
    | some s => simpa using h3 s hsp
  have e4 : (regexSpan '[' ']' (stripFences (pyStrip c))).bind loads = Option.none := by
    cases hsp : regexSpan '[' ']' (stripFences (pyStrip c)) with
    | none => rfl
    | some s => simpa using h4 s hsp
  simp only [parse_json_from_llm, if_neg hc, h2, e3, e4]

/-- Witness for C4's amended theorem: a parser failing on all inputs (as
`json.loads` does on text containing no JSON at all) together with the
non-empty input `"no json here"` yields the typed error. -/
theorem parse_json_from_llm_error_witness :
    parse_json_from_llm (fun _ => Option.none) (Option.some (txt "no json here"))
      = .error (stripFences (pyStrip (txt "no json here"))) :=
  parse_json_from_llm_error_of_all_tiers_fail (fun _ => Option.none) (txt "no json here")
    (by decide) rfl (fun _ _ => rfl) (fun _ _ => rfl)

/-- C4 (counterexample): on the empty input every tier fails (`json.loads`
rejects the empty string — the always-failing `loads` below agrees with it
on every string the function would consult — and there is no `{...}` or
`[...]` span), yet the function silently returns the empty object instead of
raising. -/
theorem parse_json_from_llm_counterexample :
    parse_json_from_llm (fun _ => Option.none) (Option.some []) = .ok (.obj [])
      ∧ (fun _ => (Option.none : Option Json)) ([] : List Char) = Option.none
      ∧ regexSpan '{' '}' [] = Option.none
      ∧ regexSpan '[' ']' [] = Option.none :=
  ⟨rfl, rfl, rfl, rfl⟩

/-- C8: empty (or `None`) content short-circuits to the empty JSON object,
for every parser: an empty model response is indistinguishable at the call
site from a model that returned `{}`. -/
theorem parse_json_from_llm_empty (loads : List Char → Option Json)
    (content : Option (List Char))
    (h : content = Option.none ∨ content = Option.some []) :
    parse_json_from_llm loads content = .ok (.obj []) := by
  rcases h with h | h <;> subst h <;> rfl

/-- Witness for C8 at `content = some ""`. -/
theorem parse_json_from_llm_empty_witness :
    parse_json_from_llm (fun _ => Option.some Json.null) (Option.some []) = .ok (.obj []) :=
  parse_json_from_llm_empty (fun _ => Option.some Json.null) (Option.some [])
    (Or.inr rfl)

/-- C3 (counterexample): a parsed expansion that is a two-string JSON array
— not a well-formed array of three strings — is used as the query list
(neither the three expanded queries nor the original query alone). -/
theorem gtp_search_queries_counterexample :
    gtp_search_queries (txt "q") true (.ok (.arr [.str (txt "a"), .str (txt "b")]))
        = [.str (txt "a"), .str (txt "b")]
      ∧ [Json.str (txt "a"), Json.str (txt "b")] ≠ [Json.str (txt "q")] :=
  ⟨rfl, by intro h; simpa using congrArg List.length h⟩

/-- C3 (amended): the query list falls back to the original query alone
unless the expansion parses to a JSON array with at least two entries, in
which case its first (up to) three entries replace it regardless of their
type; in every case the query list is non-empty, so an expansion failure
never aborts the pipeline and the search step still runs. -/
theorem gtp_search_queries_spec (query : List Char) (claude_available : Bool)
    (expansion : Except Unit Json) :
    gtp_search_queries query claude_available expansion ≠ [] ∧
    (∀ xs, claude_available = true → expansion = .ok (.arr xs) → 2 ≤ xs.length →
      gtp_search_queries query claude_available expansion = xs.take 3) ∧
    (gtp_search_queries query claude_available expansion = [.str query] ∨
      ∃ xs, expansion = .ok (.arr xs) ∧ 2 ≤ xs.length ∧
        gtp_search_queries query claude_available expansion = xs.take 3) := by
  refine ⟨?_, ?_, ?_⟩
  · cases claude_available with
    | false => simp [gtp_search_queries]
    | true =>
      cases expansion with
      | error e => simp [gtp_search_queries]
      | ok j =>
        rcases j with _ | b | n | s | xs | kvs
        · simp [gtp_search_queries]
        · simp [gtp_search_queries]
        · simp [gtp_search_queries]
        · simp [gtp_search_queries]
        · by_cases hlen : 2 ≤ xs.length
          · rcases xs with _ | ⟨x, xs'⟩
            · simp at hlen
            · simp only [gtp_search_queries]
              rw [if_pos hlen]
              simp
          · simp [gtp_search_queries, hlen]
        · simp [gtp_search_queries]
  · intro xs hcl hexp hlen
    subst hcl; subst hexp
    simp [gtp_search_queries, if_pos hlen]
  · cases claude_available with
    | false => exact Or.inl (by simp [gtp_search_queries])
    | true =>
      cases expansion with
      | error e => exact Or.inl (by simp [gtp_search_queries])
      | ok j =>
        rcases j with _ | b | n | s | xs | kvs
        · exact Or.inl (by simp [gtp_search_queries])
        · exact Or.inl (by simp [gtp_search_queries])
        · exact Or.inl (by simp [gtp_search_queries])
        · exact Or.inl (by simp [gtp_search_queries])
        · by_cases hlen : 2 ≤ xs.length
          · exact Or.inr ⟨xs, rfl, hlen, by simp [gtp_search_queries, hlen]⟩
          · exact Or.inl (by simp [gtp_search_queries, hlen])
        · exact Or.inl (by simp [gtp_search_queries])

/-- Witness for C3's amended theorem: a four-entry expansion is truncated to
its first three entries. -/
theorem gtp_search_queries_spec_witness :
    gtp_search_queries (txt "q") true
        (.ok (.arr [.str (txt "a"), .str (txt "b"), .str (txt "c"), .str (txt "d")]))
      = [.str (txt "a"), .str (txt "b"), .str (txt "c")] :=
  ((gtp_search_queries_spec (txt "q") true
      (.ok (.arr [.str (txt "a"), .str (txt "b"), .str (txt "c"), .str (txt "d")]))).2.1
    _ rfl rfl (by decide)).trans rfl

theorem foldl_gtp_merge_step (l : List SearchResult) :
    ∀ acc seen, l.foldl gtp_merge_step (acc, seen)
      = (acc ++ dedupFirstBy seen l, seenAfter seen l) := by
  induction l with
  | nil => intro acc seen; simp [dedupFirstBy, seenAfter]
  | cons r rs ih =>
    intro acc seen
    simp only [List.foldl_cons, gtp_merge_step, dedupFirstBy, seenAfter]
    by_cases hcond : r.url ≠ [] ∧ r.url ∉ seen
    · rw [if_pos hcond, if_pos hcond, if_pos hcond, ih]
      simp
    · rw [if_neg hcond, if_neg hcond, if_neg hcond, ih]

theorem gtp_merge_eq_dedup (lss : List (List SearchResult)) :
    gtp_merge lss = dedupFirstBy [] lss.flatten := by
  unfold gtp_merge
  rw [← List.foldl_flatten, foldl_gtp_merge_step]
  simp

theorem dedupFirstBy_sublist (seen : List (List Char)) (l : List SearchResult) :
    (dedupFirstBy seen l).Sublist l := by
  induction l generalizing seen with
  | nil => simp [dedupFirstBy]
  | cons r rs ih =>
    simp only [dedupFirstBy]
    split
    · exact (ih _).cons₂ r
    · exact (ih seen).cons r

theorem mem_dedupFirstBy (seen : List (List Char)) (l : List SearchResult) :
    ∀ r ∈ dedupFirstBy seen l, r.url ≠ [] ∧ r.url ∉ seen := by
  induction l generalizing seen with
  | nil => simp [dedupFirstBy]
  | cons q rs ih =>
    simp only [dedupFirstBy]
    split
    · next hcond =>
      intro r hr
      rcases List.mem_cons.mp hr with h | h
      · subst h; exact hcond
      · have hm := ih (q.url :: seen) r h
        exact ⟨hm.1, fun hmem => hm.2 (List.mem_cons_of_mem _ hmem)⟩
    · exact fun r hr => ih seen r hr

theorem dedupFirstBy_nodup (seen : List (List Char)) (l : List SearchResult) :
    ((dedupFirstBy seen l).map (fun r => r.url)).Nodup := by
  induction l generalizing seen with
  | nil => simp [dedupFirstBy]
  | cons q rs ih =>
    simp only [dedupFirstBy]
    split
    · simp only [List.map_cons, List.nodup_cons]
      constructor
      · intro hmem
        rcases List.mem_map.mp hmem with ⟨r, hr, hurl⟩
        exact (mem_dedupFirstBy _ _ r hr).2 (by rw [hurl]; exact List.mem_cons_self _ _)
      · exact ih _
    · exact ih seen

theorem dedupFirstBy_filter (l : List SearchResult) :
    ∀ (seen : List (List Char)) (u : List Char), u ≠ [] → u ∉ seen →
      (dedupFirstBy seen l).filter (fun r => r.url = u)
        = (l.find? (fun r => r.url = u)).toList := by
  induction l with
  | nil => intro seen u hu hus; simp [dedupFirstBy]
  | cons q rs ih =>
    intro seen u hu hus
    by_cases hcond : q.url ≠ [] ∧ q.url ∉ seen
    · simp only [dedupFirstBy]
      rw [if_pos hcond]
      by_cases hq : q.url = u
      · rw [List.filter_cons_of_pos (by simp [hq]), List.find?_cons_of_pos _ (by simp [hq])]
        have hnil : (dedupFirstBy (q.url :: seen) rs).filter (fun r => r.url = u) = [] := by
          rw [List.filter_eq_nil_iff]
          intro r hr
          simp only [decide_eq_true_eq]
          intro hru
          exact (mem_dedupFirstBy _ _ r hr).2
            (by rw [hru, ← hq]; exact List.mem_cons_self _ _)
        rw [hnil]
        rfl
      · rw [List.filter_cons_of_neg (by simp [hq]), List.find?_cons_of_neg _ (by simp [hq])]
        exact ih (q.url :: seen) u hu (by
          intro hmem
          rcases List.mem_cons.mp hmem with h | h
          · exact hq h.symm
          · exact hus h)
    · simp only [dedupFirstBy]
      rw [if_neg hcond]
      have hq : q.url ≠ u := by
        intro h
        rcases not_and_or.mp hcond with h1 | h1
        · exact hu (h ▸ not_not.mp h1)
        · exact hus (h ▸ not_not.mp h1)
      rw [List.find?_cons_of_neg _ (by simp [hq])]
      exact ih seen u hu hus

/-- C2: the merged Guess-the-Price output is a subsequence of the
concatenation of the per-query result lists in execution order, every kept
result has a non-empty URL, URLs are pairwise distinct, and for every
non-empty URL the output keeps exactly the first result of the
concatenation carrying it (and nothing when the URL does not occur) — i.e.
each non-empty URL appears exactly once, in first-seen order. -/
theorem gtp_merge_spec (lss : List (List SearchResult)) :
    (gtp_merge lss).Sublist lss.flatten ∧
    (∀ r ∈ gtp_merge lss, r.url ≠ []) ∧
    ((gtp_merge lss).map (fun r => r.url)).Nodup ∧
    (∀ u : List Char, u ≠ [] →
      (gtp_merge lss).filter (fun r => r.url = u)
        = (lss.flatten.find? (fun r => r.url = u)).toList) := by
  refine ⟨?_, ?_, ?_, ?_⟩
  · rw [gtp_merge_eq_dedup]
    exact dedupFirstBy_sublist [] lss.flatten
  · rw [gtp_merge_eq_dedup]
    exact fun r hr => (mem_dedupFirstBy [] lss.flatten r hr).1
  · rw [gtp_merge_eq_dedup]
    exact dedupFirstBy_nodup [] lss.flatten
  · intro u hu
    rw [gtp_merge_eq_dedup]
    exact dedupFirstBy_filter lss.flatten [] u hu (by simp)

/-- Witness for C2 on `gtpDemoLists`: the shared URL `"u1"` is kept exactly
once, as its first occurrence. -/
theorem gtp_merge_spec_witness :
    (gtp_merge gtpDemoLists).filter (fun r => r.url = txt "u1")
      = (gtpDemoLists.flatten.find? (fun r => r.url = txt "u1")).toList :=
  (gtp_merge_spec gtpDemoLists).2.2.2 (txt "u1") (by decide)

/-- C5: whenever the over-fetched pool has pairwise distinct view counts,
the popular-mode list is sorted strictly descending by view count and its
length is at most the requested count. -/
theorem get_videos_by_popularity_spec
    (fetch : Nat → Option (List Char) → FetchResult) (max_results : Nat)
    (hdist : ((fetch (min (max_results * 2) 50) Option.none).videos.map
      Video.view_count).Nodup) :
    (get_videos_by_popularity fetch max_results).videos.length ≤ max_results ∧
    List.Pairwise (fun a b => b.view_count < a.view_count)
      (get_videos_by_popularity fetch max_results).videos := by
  have hvid : (get_videos_by_popularity fetch max_results).videos
      = (sortByViewsDesc (fetch (min (max_results * 2) 50) Option.none).videos).take
          max_results := rfl
  constructor
  · rw [hvid, List.length_take]
    exact inf_le_left
  · rw [hvid]
    set pool := (fetch (min (max_results * 2) 50) Option.none).videos with hpool
    have hs : List.Pairwise
        (fun a b : Video => (decide (b.view_count ≤ a.view_count)) = true)
        (pool.mergeSort (fun a b => decide (b.view_count ≤ a.view_count))) :=
      List.sorted_mergeSort
        (fun a b c h1 h2 => by
          simp only [decide_eq_true_eq] at h1 h2 ⊢
          omega)
        (fun a b => by
          simp only [Bool.or_eq_true, decide_eq_true_eq]
          omega)
        pool
    have hperm := List.mergeSort_perm pool
      (fun a b => decide (b.view_count ≤ a.view_count))
    have hnd : ((pool.mergeSort (fun a b => decide (b.view_count ≤ a.view_count))).map
        Video.view_count).Nodup :=
      ((hperm.map Video.view_count).nodup_iff).mpr hdist
    have hne := List.pairwise_map.mp hnd
    have hlt : List.Pairwise (fun a b : Video => b.view_count < a.view_count)
        (pool.mergeSort (fun a b => decide (b.view_count ≤ a.view_count))) :=
      (hs.and hne).imp (fun h => by
        rcases h with ⟨h1, h2⟩
        simp only [decide_eq_true_eq] at h1
        omega)
    exact List.Pairwise.sublist (List.take_sublist _ _) hlt

/-- Witness for C5: three distinct-view-count videos, requested count 2. -/
theorem get_videos_by_popularity_spec_witness :
    ((gvDemoFetch (min (2 * 2) 50) Option.none).videos.map Video.view_count).Nodup ∧
    ((get_videos_by_popularity gvDemoFetch 2).videos.length ≤ 2 ∧
      List.Pairwise (fun a b => b.view_count < a.view_count)
        (get_videos_by_popularity gvDemoFetch 2).videos) :=
  ⟨by decide, get_videos_by_popularity_spec gvDemoFetch 2 (by decide)⟩

/-- C6 (counterexample): in popular mode the pagination token of the
underlying over-fetch is exposed to the caller, not treated as exhausted:
a fetch returning token `"TOK"` yields result token `"TOK"`, not `None`. -/
theorem popularity_token_counterexample :
    (get_videos_by_popularity (fun _ _ => ⟨[], Option.some (txt "TOK")⟩) 5).next_page_token
        = Option.some (txt "TOK")
      ∧ Option.some (txt "TOK") ≠ (Option.none : Option (List Char)) :=
  ⟨rfl, by simp⟩

/-- C6 (amended): popular mode passes the over-fetch's pagination token
through unchanged (both directly and via `get_videos_sorted`); it is the
caller's responsibility to treat it as meaningless. -/
theorem popularity_token_passthrough
    (fetch : Nat → Option (List Char) → FetchResult) (max_results : Nat)
    (page_token : Option (List Char)) :
    (get_videos_by_popularity fetch max_results).next_page_token
        = (fetch (min (max_results * 2) 50) Option.none).next_page_token
      ∧ (get_videos_sorted fetch (txt "popular") max_results page_token).next_page_token
        = (fetch (min (max_results * 2) 50) Option.none).next_page_token := by
  constructor
  · rfl
  · rw [get_videos_sorted, if_pos rfl]
    rfl

theorem demo_roundtrip (i : Nat × Nat) : demoDecode (demoEncode i) = Option.some i := by
  have hall : (List.replicate (Nat.pair i.1 i.2) 'a').all (fun c => c = 'a') = true := by
    rw [List.all_eq_true]
    intro c hc
    simp [List.eq_of_mem_replicate hc]
  simp [demoDecode, demoEncode, hall, Nat.unpair_pair]

/-- C7: under PIL's contracts (`fit` produces exactly the target dimensions
and the PNG encode/decode round trip restores the image), every decodable
input resizes to an image that decodes to exactly the target size re-encoded
as PNG, and every undecodable input is returned unchanged without raising. -/
theorem resize_image_spec {Img : Type}
    (decode : List Char → Option Img) (fit : Img → Nat × Nat → Img)
    (encodePNG : Img → List Char) (dims : Img → Nat × Nat)
    (hfit : ∀ i t, dims (fit i t) = t)
    (hroundtrip : ∀ i, decode (encodePNG i) = Option.some i)
    (b64 : List Char) (W H : Nat) :
    (∀ img, decode b64 = Option.some img →
      resize_image decode fit encodePNG b64 (W, H) = encodePNG (fit img (W, H)) ∧
      ∃ out, decode (resize_image decode fit encodePNG b64 (W, H)) = Option.some out ∧
        dims out = (W, H)) ∧
    (decode b64 = Option.none → resize_image decode fit encodePNG b64 (W, H) = b64) := by
  constructor
  · intro img hdec
    have h1 : resize_image decode fit encodePNG b64 (W, H) = encodePNG (fit img (W, H)) := by
      simp [resize_image, hdec]
    exact ⟨h1, fit img (W, H), by rw [h1, hroundtrip], hfit img (W, H)⟩
  · intro hdec
    simp [resize_image, hdec]

/-- Witness for C7: the unary-encoded 9×9 image resizes to the 4×3 target;
the undecodable input `"z"` is returned unchanged. -/
theorem resize_image_spec_witness :
    resize_image demoDecode demoFit demoEncode (demoEncode (9, 9)) (4, 3)
        = demoEncode (4, 3)
      ∧ resize_image demoDecode demoFit demoEncode (txt "z") (4, 3) = txt "z" :=
  ⟨((resize_image_spec demoDecode demoFit demoEncode demoDims (fun _ _ => rfl)
      demo_roundtrip (demoEncode (9, 9)) 4 3).1 (9, 9) (demo_roundtrip (9, 9))).1,
   (resize_image_spec demoDecode demoFit demoEncode demoDims (fun _ _ => rfl)
      demo_roundtrip (txt "z") 4 3).2 (by decide)⟩

end Newsletter



